import Mathlib

/-!
# Verification of the gemini-cli-job subprocess execution and output-recovery engine

This file is a shallow embedding, in Lean 4, of the core of the
`gemini-cli-job` repository:

* the Process Runner (`GeminiCliCore.executeGemini`, the variant with the
  `settled` guard flag, timers and process-tree cleanup), embedded as an
  explicit event-step state machine;
* the job memory store (`JobMemory.loadJobMemory` / `saveJobMemory` /
  `updateJobMemory` / `getMemoryFilePath`), embedded as pure operations over
  an association-list model of JSON objects and of the file system;
* the Output Recovery Parser and the memory-enabled Job Executor.  The
  memory-enabled `runTemplatedJob` variant and its response parser are not
  part of the source snapshot (only an older variant, their caller in
  `index.ts` and the changelog describing them are), so those two components
  are modelled from the specification's words; their doc comments say so.

Theorems at the end of the file settle the frozen claims C1..C10.
-/

namespace GeminiCliJob

/-! ## JSON values

JSON-compatible values as stored in job memory files and produced by the
output parser.  Numbers are modelled as integers (the job memory module only
ever writes integer counters; fractional JSON numbers are outside the scope
of the claims). -/

inductive JVal where
  | null : JVal
  | bool (b : Bool) : JVal
  | num (n : Int) : JVal
  | str (s : String) : JVal
  | arr (xs : List JVal) : JVal
  | obj (fields : List (String × JVal)) : JVal

/-- A JavaScript object, as a key-value association list (first occurrence of
a key is its binding; the operations below keep keys unique). -/
abbrev JRecord := List (String × JVal)

/-- Lookup of a key in an object, `o[k]`: the first binding wins. -/
def getKey (r : JRecord) (k : String) : Option JVal :=
  match r with
  | [] => none
  | (k', v) :: rest => if k' = k then some v else getKey rest k

/-- `o[k] = v`: replace the first binding of `k` in place, or append a new
binding at the end (JavaScript objects keep first-insertion order). -/
def setKey (r : JRecord) (k : String) (v : JVal) : JRecord :=
  match r with
  | [] => [(k, v)]
  | (k', v') :: rest => if k' = k then (k, v) :: rest else (k', v') :: setKey rest k v

/-- JavaScript object spread `{...m, ...u}`: every binding of `u` is written
over `m`, later bindings of `u` winning. -/
def spreadMerge (m u : JRecord) : JRecord :=
  u.foldl (fun acc kv => setKey acc kv.1 kv.2) m

/-! ## Job memory (`src/utils/jobMemory.ts`)

The memory directory holds one JSON file per job.  The file system is
modelled as an association list from file path to parsed record; the
operations below are the pure content of `JobMemory`'s methods (the `fs`
calls replaced by reads/writes of this store, `new Date().toISOString()`
replaced by an explicit `now` argument). -/

/-- The model of the on-disk memory directory: path ↦ stored JSON object. -/
abbrev Store := List (String × JRecord)

def storeGet (st : Store) (p : String) : Option JRecord :=
  match st with
  | [] => none
  | (p', r) :: rest => if p' = p then some r else storeGet rest p

def storeSet (st : Store) (p : String) (r : JRecord) : Store :=
  match st with
  | [] => [(p, r)]
  | (p', r') :: rest => if p' = p then (p, r) :: rest else (p', r') :: storeSet rest p r

/-- `true` for the characters the sanitizer keeps: `[a-zA-Z0-9-_]`. -/
def isSafeChar (c : Char) : Bool :=
  (('a' ≤ c) && (c ≤ 'z')) || (('A' ≤ c) && (c ≤ 'Z')) ||
    (('0' ≤ c) && (c ≤ '9')) || (c = '-') || (c = '_')

/-- One character of `jobName.replace(/[^a-zA-Z0-9-_]/g, '_')`. -/
def sanChar (c : Char) : Char :=
  if isSafeChar c then c else '_'

/-- `jobName.replace(/[^a-zA-Z0-9-_]/g, '_')` from `getMemoryFilePath`. -/
def sanitizeJobName (j : String) : String :=
  String.mk (j.data.map sanChar)

/-- The memory directory `path.join(os.homedir(), '.gemini-cli-job', 'memory')`,
with the home directory folded into the constant. -/
def memoryDir : String := "~/.gemini-cli-job/memory"

/-- `JobMemory.getMemoryFilePath`: `path.join(memoryDir, sanitized + '.memory.json')`. -/
def getMemoryFilePath (j : String) : String :=
  memoryDir ++ "/" ++ sanitizeJobName j ++ ".memory.json"

/-- `JobMemory.loadJobMemory`: returns the parsed file, or `{}` when the
file does not exist (the parse-failure catch also returns `{}` and is
subsumed by the `Store` holding already-parsed records). -/
def loadJobMemory (st : Store) (j : String) : JRecord :=
  match storeGet st (getMemoryFilePath j) with
  | some r => r
  | none => []

/-- `memory._metadata?.updateCount || 0` of `saveJobMemory`, split into the
`_metadata` projection (`countOfMeta`) applied to `getKey r "_metadata"`.
The module itself only ever writes integer `updateCount` values; a
non-numeric count (never produced by this code) is folded to `0`, and the
theorems about counts assume the carried count is numeric or absent. -/
def countOfMeta (md : Option JVal) : Int :=
  match md with
  | some (JVal.obj f) =>
    match getKey f "updateCount" with
    | some (JVal.num n) => n
    | _ => 0
  | _ => 0

def updateCountOf (r : JRecord) : Int :=
  countOfMeta (getKey r "_metadata")

/-- The raw `updateCount` field carried by a memory map, if any. -/
def rawUpdateCount (r : JRecord) : Option JVal :=
  match getKey r "_metadata" with
  | some (JVal.obj f) => getKey f "updateCount"
  | _ => none

/-- The fresh `_metadata` block written by `saveJobMemory`. -/
def freshMetadata (j now : String) (m : JRecord) : JVal :=
  JVal.obj [("jobName", JVal.str j), ("lastUpdated", JVal.str now),
            ("updateCount", JVal.num (updateCountOf m + 1))]

/-- `{...memory, _metadata: {...}}` of `saveJobMemory`. -/
def memoryWithMetadata (j now : String) (m : JRecord) : JRecord :=
  setKey m "_metadata" (freshMetadata j now m)

/-- `JobMemory.saveJobMemory`: write the map, with the fresh metadata block,
to the job's memory file. -/
def saveJobMemory (st : Store) (j : String) (m : JRecord) (now : String) : Store :=
  storeSet st (getMemoryFilePath j) (memoryWithMetadata j now m)

/-- `JobMemory.updateJobMemory`: load, spread-merge the updates over the
current map, save. -/
def updateJobMemory (st : Store) (j : String) (u : JRecord) (now : String) : Store :=
  saveJobMemory st j (spreadMerge (loadJobMemory st j) u) now

/-! ## Process Runner (`GeminiCliCore.executeGemini`)

The promise executor of `executeGemini` (the variant with the `settled`
guard, a main timeout timer, a force-kill timer, and `killProcessTree`) is
embedded as a state machine.  One `Event` is one callback invocation of the
Node event loop (a data chunk, a timer firing, the subprocess `close` or
`error` event); `step` is the body of the corresponding handler, executed
atomically as in the single-threaded event loop.  A timer whose
`clearTimeout` has run never fires (its `*Active` flag is false), and
`removeAllListeners` stops delivery of further subprocess events
(`listenersActive`). -/

/-- Target of a `killProcessTree` signal: the whole process group
(`process.kill(-pid, sig)`, non-Windows) or the direct child only
(`geminiProcess.kill(sig)`, Windows). -/
inductive KillTarget where
  | group (pid : Nat) : KillTarget
  | child : KillTarget
deriving DecidableEq

inductive Sig where
  | sigterm : Sig
  | sigkill : Sig
deriving DecidableEq

/-- How the promise settled.  `completed` is the `resolve` on exit code 0;
the other three are the `reject` calls of the close (non-zero code),
timeout, and error handlers. -/
inductive Settlement where
  | completed (stdout stderr : String) : Settlement
  | exitFailure (msg : String) : Settlement
  | timedOut (msg : String) : Settlement
  | launchFailed (msg : String) : Settlement
deriving DecidableEq

/-- Static data of one invocation: platform, the child's pid (`none` when
spawning yielded no pid), and the configured timeout in milliseconds. -/
structure RunnerCfg where
  win32 : Bool
  pid : Option Nat
  timeoutMs : Nat
deriving DecidableEq

structure RunnerState where
  settled : Bool
  timeoutActive : Bool
  forceKillActive : Bool
  listenersActive : Bool
  stdoutBuf : String
  stderrBuf : String
  kills : List (KillTarget × Sig)
  settlement : Option Settlement
deriving DecidableEq

/-- State right after `spawn` returned and the handlers were installed. -/
def initState : RunnerState :=
  { settled := false, timeoutActive := true, forceKillActive := false,
    listenersActive := true, stdoutBuf := "", stderrBuf := "",
    kills := [], settlement := none }

inductive Event where
  | stdoutData (chunk : String) : Event
  | stderrData (chunk : String) : Event
  | timeoutFire : Event
  | forceKillFire : Event
  | close (code : Option Int) : Event
  | errored (msg : String) : Event

/-- `killProcessTree(signal)`: no-op without a pid; otherwise signal the
process group via the negative group id, except on win32 where only the
direct child is signalled. -/
def sendKill (cfg : RunnerCfg) (s : RunnerState) (sig : Sig) : RunnerState :=
  match cfg.pid with
  | none => s
  | some pid =>
    if cfg.win32 then { s with kills := s.kills ++ [(KillTarget.child, sig)] }
    else { s with kills := s.kills ++ [(KillTarget.group pid, sig)] }

/-- `clearTimers()`: cancel both pending timers. -/
def clearTimers (s : RunnerState) : RunnerState :=
  { s with timeoutActive := false, forceKillActive := false }

/-- `cleanup()`: `clearTimers` plus `removeAllListeners` on the process and
its stdio streams (and destroying stdin). -/
def cleanup (s : RunnerState) : RunnerState :=
  { clearTimers s with listenersActive := false }

/-- Whitespace for the model of `String.prototype.trim` (the claims only
involve ASCII whitespace). -/
def isWs (c : Char) : Bool :=
  c = ' ' || c = '\t' || c = '\n' || c = '\r'

def trimChars (l : List Char) : List Char :=
  ((l.dropWhile isWs).reverse.dropWhile isWs).reverse

def trimStr (s : String) : String :=
  String.mk (trimChars s.data)

/-- Does `pat` occur as a contiguous run inside `l`? (`String.includes`). -/
def hasSub (l pat : List Char) : Bool :=
  l.tails.any (fun t => pat.isPrefixOf t)

def intCodeStr (code : Option Int) : String :=
  match code with
  | some n => toString n
  | none => "null"

/-- The rejection message of the close handler for a non-zero exit code. -/
def exitFailureMsg (code : Option Int) (stderr : String) : String :=
  "Gemini CLI failed with exit code " ++ intCodeStr code ++ ": " ++ stderr

/-- The rejection message of the timeout handler. -/
def timeoutMsg (ms : Nat) : String :=
  "Gemini CLI execution timed out after " ++ toString ms ++ "ms"

def enoentHint : String :=
  "\n\nPossible solutions:\n1. Install Gemini CLI: npm install -g @google/gemini-cli\n2. Verify Gemini CLI is in PATH: try running 'gemini --help' in terminal\n3. On Windows: ensure Node.js and npm are properly installed\n4. Restart terminal after installation to refresh PATH\n\nPlatform: "

/-- The rejection message of the error handler, with the ENOENT guidance
block appended when the underlying message mentions ENOENT. -/
def launchFailureMsg (platformName errMsg : String) : String :=
  let base := "Failed to execute Gemini CLI: " ++ errMsg
  if hasSub errMsg.data "ENOENT".data then base ++ enoentHint ++ platformName else base

/-- One event-handler invocation of the promise executor. -/
def step (cfg : RunnerCfg) (s : RunnerState) (e : Event) : RunnerState :=
  match e with
  | Event.stdoutData chunk =>
    if s.listenersActive then { s with stdoutBuf := s.stdoutBuf ++ chunk } else s
  | Event.stderrData chunk =>
    if s.listenersActive then { s with stderrBuf := s.stderrBuf ++ chunk } else s
  | Event.timeoutFire =>
    if s.timeoutActive then
      -- the main timer fires (and is thereby consumed):
      -- killProcessTree('SIGTERM'); schedule the force-kill timer;
      -- then, unless already settled: settled = true; cleanup(); reject.
      let s1 := sendKill cfg { s with timeoutActive := false } Sig.sigterm
      let s2 := { s1 with forceKillActive := true }
      if s2.settled then s2
      else
        { cleanup s2 with settled := true,
                          settlement := some (Settlement.timedOut (timeoutMsg cfg.timeoutMs)) }
    else s
  | Event.forceKillFire =>
    if s.forceKillActive then
      sendKill cfg { s with forceKillActive := false } Sig.sigkill
    else s
  | Event.close code =>
    if s.listenersActive then
      -- best-effort killProcessTree('SIGTERM'); cleanup(); then settle
      -- unless the settled guard is already set.
      let s1 := cleanup (sendKill cfg s Sig.sigterm)
      if s1.settled then s1
      else if code = some 0 then
        { s1 with settled := true,
                  settlement := some (Settlement.completed (trimStr s1.stdoutBuf)
                    (trimStr s1.stderrBuf)) }
      else
        { s1 with settled := true,
                  settlement := some (Settlement.exitFailure
                    (exitFailureMsg code s1.stderrBuf)) }
    else s
  | Event.errored msg =>
    if s.listenersActive then
      let s1 := cleanup s
      if s1.settled then s1
      else
        { s1 with settled := true,
                  settlement := some (Settlement.launchFailed
                    (launchFailureMsg (if cfg.win32 then "win32" else "linux") msg)) }
    else s

/-- Run the promise executor over a whole sequence of observed events. -/
def run (cfg : RunnerCfg) (es : List Event) : RunnerState :=
  es.foldl (step cfg) initState

/-! ### Runner invariants -/

@[simp] theorem sendKill_settled (cfg : RunnerCfg) (s : RunnerState) (sig : Sig) :
    (sendKill cfg s sig).settled = s.settled := by
  cases hp : cfg.pid <;> simp [sendKill, hp] <;> cases cfg.win32 <;> simp

@[simp] theorem sendKill_settlement (cfg : RunnerCfg) (s : RunnerState) (sig : Sig) :
    (sendKill cfg s sig).settlement = s.settlement := by
  cases hp : cfg.pid <;> simp [sendKill, hp] <;> cases cfg.win32 <;> simp

@[simp] theorem sendKill_timeoutActive (cfg : RunnerCfg) (s : RunnerState) (sig : Sig) :
    (sendKill cfg s sig).timeoutActive = s.timeoutActive := by
  cases hp : cfg.pid <;> simp [sendKill, hp] <;> cases cfg.win32 <;> simp

@[simp] theorem sendKill_forceKillActive (cfg : RunnerCfg) (s : RunnerState) (sig : Sig) :
    (sendKill cfg s sig).forceKillActive = s.forceKillActive := by
  cases hp : cfg.pid <;> simp [sendKill, hp] <;> cases cfg.win32 <;> simp

@[simp] theorem sendKill_listenersActive (cfg : RunnerCfg) (s : RunnerState) (sig : Sig) :
    (sendKill cfg s sig).listenersActive = s.listenersActive := by
  cases hp : cfg.pid <;> simp [sendKill, hp] <;> cases cfg.win32 <;> simp

@[simp] theorem sendKill_stdoutBuf (cfg : RunnerCfg) (s : RunnerState) (sig : Sig) :
    (sendKill cfg s sig).stdoutBuf = s.stdoutBuf := by
  cases hp : cfg.pid <;> simp [sendKill, hp] <;> cases cfg.win32 <;> simp

@[simp] theorem sendKill_stderrBuf (cfg : RunnerCfg) (s : RunnerState) (sig : Sig) :
    (sendKill cfg s sig).stderrBuf = s.stderrBuf := by
  cases hp : cfg.pid <;> simp [sendKill, hp] <;> cases cfg.win32 <;> simp

/-- The reachable-state invariant of the promise executor: the `settled`
guard tracks settlement; once settled all timers are cleared and all
listeners removed (and conversely, while unsettled the main timer and the
listeners are live); the force-kill timer is never pending between events. -/
def Inv (s : RunnerState) : Prop :=
  s.settled = s.settlement.isSome ∧
  s.forceKillActive = false ∧
  s.settled = !s.timeoutActive ∧
  s.settled = !s.listenersActive

/-- Discriminator: is the settlement a `resolve` with an ExecutionResult? -/
def isCompletedSettlement (o : Option Settlement) : Bool :=
  match o with
  | some (Settlement.completed _ _) => true
  | _ => false

/-! ### Claims about the Process Runner -/

/-! ### Claims about job memory -/

/-- Concrete store for the C8 counterexample: the job's memory file holds
`{_metadata: {updateCount: 1}}`. -/
def memSt0 : Store :=
  [(getMemoryFilePath "job", [("_metadata", JVal.obj [("updateCount", JVal.num 1)])])]

/-! ## A JSON parser

The Output Recovery Parser of the memory-enabled job executor is built on
`JSON.parse`.  That executor is not part of the source snapshot, so the
parser below is the JSON grammar itself (strings with the standard escapes,
integers — fractional and exponent numbers are outside the claims and are
treated as parse failures —, literals, arrays, objects), written
fuel-recursively over the character list. -/

def skipWs (l : List Char) : List Char := l.dropWhile isWs

def hexVal (c : Char) : Option Nat :=
  if '0' ≤ c ∧ c ≤ '9' then some (c.toNat - '0'.toNat)
  else if 'a' ≤ c ∧ c ≤ 'f' then some (c.toNat - 'a'.toNat + 10)
  else if 'A' ≤ c ∧ c ≤ 'F' then some (c.toNat - 'A'.toNat + 10)
  else none

/-- Body of a JSON string after the opening quote: the decoded characters
and the remaining input after the closing quote. -/
def pStringBody : List Char → Option (List Char × List Char)
  | [] => none
  | '"' :: rest => some ([], rest)
  | '\\' :: e :: rest =>
    match e with
    | '"' => (pStringBody rest).map (fun p => ('"' :: p.1, p.2))
    | '\\' => (pStringBody rest).map (fun p => ('\\' :: p.1, p.2))
    | '/' => (pStringBody rest).map (fun p => ('/' :: p.1, p.2))
    | 'n' => (pStringBody rest).map (fun p => ('\n' :: p.1, p.2))
    | 't' => (pStringBody rest).map (fun p => ('\t' :: p.1, p.2))
    | 'r' => (pStringBody rest).map (fun p => ('\r' :: p.1, p.2))
    | 'b' => (pStringBody rest).map (fun p => ('\x08' :: p.1, p.2))
    | 'f' => (pStringBody rest).map (fun p => ('\x0C' :: p.1, p.2))
    | 'u' =>
      match rest with
      | a :: b :: c :: d :: rest2 =>
        match hexVal a, hexVal b, hexVal c, hexVal d with
        | some ha, some hb, some hc, some hd =>
          (pStringBody rest2).map
            (fun p => (Char.ofNat (((ha * 16 + hb) * 16 + hc) * 16 + hd) :: p.1, p.2))
        | _, _, _, _ => none
      | _ => none
    | _ => none
  | c :: rest =>
    if c.toNat < 32 then none
    else (pStringBody rest).map (fun p => (c :: p.1, p.2))

def digitsToNat (ds : List Char) : Nat :=
  ds.foldl (fun acc c => acc * 10 + (c.toNat - '0'.toNat)) 0

def isDigit (c : Char) : Bool := '0' ≤ c && c ≤ '9'

/-- A JSON integer (sign and digits, no leading zero); a following `.`,
`e` or `E` makes the parse fail (fractional numbers are out of scope). -/
def pNumber (l : List Char) : Option (Int × List Char) :=
  let (neg, l1) := match l with
    | '-' :: r => (true, r)
    | _ => (false, l)
  let ds := l1.takeWhile isDigit
  let rest := l1.dropWhile isDigit
  if ds.isEmpty then none
  else if 2 ≤ ds.length ∧ ds.head? = some '0' then none
  else
    match rest with
    | '.' :: _ => none
    | 'e' :: _ => none
    | 'E' :: _ => none
    | _ =>
      let n : Int := Int.ofNat (digitsToNat ds)
      some (if neg then -n else n, rest)

mutual

/-- One JSON value (after skipping leading whitespace) and the rest. -/
def pVal : Nat → List Char → Option (JVal × List Char)
  | 0, _ => none
  | Nat.succ f, l =>
    match skipWs l with
    | '{' :: rest =>
      match skipWs rest with
      | '}' :: r2 => some (JVal.obj [], r2)
      | r2 => (pMembers f r2).map (fun p => (JVal.obj p.1, p.2))
    | '[' :: rest =>
      match skipWs rest with
      | ']' :: r2 => some (JVal.arr [], r2)
      | r2 => (pElems f r2).map (fun p => (JVal.arr p.1, p.2))
    | '"' :: rest =>
      (pStringBody rest).map (fun p => (JVal.str (String.mk p.1), p.2))
    | 't' :: 'r' :: 'u' :: 'e' :: rest => some (JVal.bool true, rest)
    | 'f' :: 'a' :: 'l' :: 's' :: 'e' :: rest => some (JVal.bool false, rest)
    | 'n' :: 'u' :: 'l' :: 'l' :: rest => some (JVal.null, rest)
    | r => (pNumber r).map (fun p => (JVal.num p.1, p.2))

/-- Members of an object, from the first key to the closing brace. -/
def pMembers : Nat → List Char → Option (List (String × JVal) × List Char)
  | 0, _ => none
  | Nat.succ f, l =>
    match skipWs l with
    | '"' :: r =>
      match pStringBody r with
      | some (key, r2) =>
        match skipWs r2 with
        | ':' :: r3 =>
          match pVal f r3 with
          | some (v, r4) =>
            match skipWs r4 with
            | ',' :: r5 =>
              (pMembers f r5).map (fun p => ((String.mk key, v) :: p.1, p.2))
            | '}' :: r5 => some ([(String.mk key, v)], r5)
            | _ => none
          | none => none
        | _ => none
      | none => none
    | _ => none

/-- Elements of an array, from the first element to the closing bracket. -/
def pElems : Nat → List Char → Option (List JVal × List Char)
  | 0, _ => none
  | Nat.succ f, l =>
    match pVal f l with
    | some (v, r) =>
      match skipWs r with
      | ',' :: r2 => (pElems f r2).map (fun p => (v :: p.1, p.2))
      | ']' :: r2 => some ([v], r2)
      | _ => none
    | none => none

end

/-- `JSON.parse` on a character list: a single value with only whitespace
around it. -/
def jsonParseL (l : List Char) : Option JVal :=
  match pVal (l.length + 2) l with
  | some (v, rest) => if (skipWs rest).isEmpty then some v else none
  | none => none

/-! ## Output Recovery Parser

Modelled from the spec: the Output Recovery Parser (`recover`) of the
memory-enabled job executor is not under `src/` (only the changelog entry
"Robust JSON Parsing — handles pure JSON, mixed output with logs, and plain
text fallback; multiple parsing strategies" and the executor's caller are),
so the definitions below follow §4.1 of the specification: whole-text parse
accepted when it yields an object (even without `jobResult`); then an
embedded-object scan over three successively looser brace-delimited
candidate shapes, accepting the first candidate that parses to an object
with a non-empty string `jobResult`; then a line scan; then the plain-text
fallback returning the raw text itself. -/

/-- The contiguous slice of `l` starting at `i` with `n` characters. -/
def slice (l : List Char) (i n : Nat) : List Char := (l.drop i).take n

/-- Every contiguous slice of `l` (with duplicates; used both to enumerate
scan candidates and to quantify over all substrings). -/
def allSlices (l : List Char) : List (List Char) :=
  (List.range (l.length + 1)).flatMap
    (fun i => (List.range (l.length + 1)).map (fun n => slice l i n))

/-- `t` occurs contiguously inside `l`. -/
def SubSeg (t l : List Char) : Prop := ∃ l₁ l₂, l = l₁ ++ t ++ l₂

/-- `text.split('\n')` on character lists (empty pieces kept, as in
JavaScript). -/
def splitNl : List Char → List (List Char)
  | [] => [[]]
  | c :: rest =>
    if c = '\n' then [] :: splitNl rest
    else
      match splitNl rest with
      | [] => [[c]]
      | line :: more => (c :: line) :: more

/-! ### Candidate extraction (spec §4.1 strategy 2 and 3) -/

/-- The literal `"jobResult"` (with quotes), required inside a flat
candidate by the most specific embedded pattern. -/
def patJobResultQuoted : List Char := '"' :: ("jobResult".data ++ ['"'])

/-- The bare substring `jobResult`, required by the line filter. -/
def patJobResult : List Char := "jobResult".data

/-- The interior of a brace-delimited span. -/
def interior (c : List Char) : List Char := (c.drop 1).dropLast

def startsEndsBrace (c : List Char) : Bool :=
  c.head? = some '{' && c.getLast? = some '}'

/-- Pattern (a): a brace-delimited span with no inner braces (hence
minimal) containing the literal key `"jobResult"`. -/
def flatCandPred (c : List Char) : Bool :=
  startsEndsBrace c &&
    (interior c).all (fun ch => !(ch = '{') && !(ch = '}')) &&
    hasSub c patJobResultQuoted

/-- Depth scan for one balanced brace group: `rest` is the input after the
opening brace, `d` the current depth; `true` when the depth returns to zero
exactly at the end without exceeding `maxd`. -/
def groupScan : List Char → Nat → Nat → Bool
  | [], _, _ => false
  | ch :: rest, d, maxd =>
    if ch = '{' then decide (d + 1 ≤ maxd) && groupScan rest (d + 1) maxd
    else if ch = '}' then (if d = 1 then rest.isEmpty else groupScan rest (d - 1) maxd)
    else groupScan rest d maxd

/-- Pattern (b): one balanced brace-delimited group with nesting at most
one level deep (total depth ≤ 2). -/
def nestedCandPred (c : List Char) : Bool :=
  match c with
  | '{' :: rest => groupScan rest 1 2
  | _ => false

/-- Pattern (c): the greedy span, from the first `{` to the last `}`. -/
def greedySpan (l : List Char) : List (List Char) :=
  match List.findIdx? (fun c => c = '{') l, List.findIdx? (fun c => c = '}') l.reverse with
  | some i, some rj =>
    let j := l.length - 1 - rj
    if i < j then [slice l i (j + 1 - i)] else []
  | _, _ => []

/-- All candidates of the embedded-object scan, most specific pattern
first. -/
def embeddedCandidates (l : List Char) : List (List Char) :=
  (allSlices l).filter flatCandPred ++ (allSlices l).filter nestedCandPred ++ greedySpan l

/-- Line-scan candidates: each line, trimmed, that starts with `{` and
contains `jobResult`. -/
def lineCandidates (l : List Char) : List (List Char) :=
  ((splitNl l).map trimChars).filter
    (fun c => (c.head? = some '{' : Bool) && hasSub c patJobResult)

/-! ### Acceptance and the recovery function -/

inductive RecoveryMode where
  | wholeTextJson : RecoveryMode
  | embeddedJson : RecoveryMode
  | lineJson : RecoveryMode
  | plainTextFallback : RecoveryMode
deriving DecidableEq

structure RecoveredResponse where
  jobResult : String
  jobMemoryUpdates : JRecord
  recoveryMode : RecoveryMode

/-- The `jobMemory` object of a parsed response, when present. -/
def memoryUpdatesOf (fs : List (String × JVal)) : JRecord :=
  match getKey fs "jobMemory" with
  | some (JVal.obj m) => m
  | _ => []

/-- Acceptance for the embedded and line strategies: an object with a
non-empty string `jobResult` (spec §4.1: a `jobResult` that is missing, not
a string, or empty is treated as parse failure; a non-object parse result
is rejected). -/
def acceptStrict (v : JVal) : Option (String × JRecord) :=
  match v with
  | JVal.obj fs =>
    match getKey fs "jobResult" with
    | some (JVal.str s) => if s = "" then none else some (s, memoryUpdatesOf fs)
    | _ => none
  | _ => none

/-- Scan a candidate list: parse each candidate, accept the first one that
parses to an object with a non-empty string `jobResult`; a candidate that
fails to parse, or parses to a non-object, or to an object without an
acceptable `jobResult`, is skipped and the scan continues. -/
def scanCandidates : List (List Char) → Option (String × JRecord)
  | [] => none
  | c :: rest =>
    match jsonParseL c with
    | some v =>
      match acceptStrict v with
      | some r => some r
      | none => scanCandidates rest
    | none => scanCandidates rest

/-- Modelled from the spec (§4.1): the Output Recovery Parser `recover`.
Strategy 1 accepts any whole-text object unconditionally (its `jobResult`
read leniently, the spec's documented asymmetry); strategy 2 scans the
embedded candidates; strategy 3 the line candidates; strategy 4 returns the
raw text unchanged as the guaranteed plain-text fallback. -/
def recover (raw : String) : RecoveredResponse :=
  match jsonParseL (trimChars raw.data) with
  | some (JVal.obj fs) =>
    { jobResult :=
        (match getKey fs "jobResult" with
         | some (JVal.str s) => s
         | _ => ""),
      jobMemoryUpdates := memoryUpdatesOf fs,
      recoveryMode := RecoveryMode.wholeTextJson }
  | _ =>
    match scanCandidates (embeddedCandidates raw.data) with
    | some (jr, mem) =>
      { jobResult := jr, jobMemoryUpdates := mem,
        recoveryMode := RecoveryMode.embeddedJson }
    | none =>
      match scanCandidates (lineCandidates raw.data) with
      | some (jr, mem) =>
        { jobResult := jr, jobMemoryUpdates := mem,
          recoveryMode := RecoveryMode.lineJson }
      | none =>
        { jobResult := raw, jobMemoryUpdates := [],
          recoveryMode := RecoveryMode.plainTextFallback }

/-! ### Claims about the Output Recovery Parser -/

def isObjVal : JVal → Bool
  | JVal.obj _ => true
  | _ => false

/-- Does `t` parse as JSON to an object? -/
def objParses (t : List Char) : Bool :=
  match jsonParseL t with
  | some v => isObjVal v
  | none => false

/-! ## Job Executor

Modelled from the spec: the memory-enabled job executor (the
`runTemplatedJob` variant whose caller appears in `index.ts` as
`runTemplatedJob(job, configDirectory, geminiOptions, googleCloudProject)`)
is not under `src/`; the definitions below follow §4.3 and §7 of the
specification.  The fallible collaborators (template loading, prompt
building, the Process Runner call, memory persistence) are abstracted as an
environment of `Except`-valued steps; one run is the sequential pipeline
with a single catch at the job boundary. -/

structure JobEnv where
  loadTemplate : Except String String
  buildPrompt : String → Except String String
  /-- The Process Runner call: `ok (stdout, stderr)` on a zero exit
  (already trimmed, as the runner resolves), `error msg` on a rejection
  (launch failure, timeout, or non-zero exit). -/
  execute : String → Except String (String × String)
  /-- When `some msg`, every memory persistence call throws `msg`. -/
  persistError : Option String

structure JobOutcome where
  success : Bool
  message : String

def modeTag : RecoveryMode → String
  | RecoveryMode.wholeTextJson => "wholeTextJson"
  | RecoveryMode.embeddedJson => "embeddedJson"
  | RecoveryMode.lineJson => "lineJson"
  | RecoveryMode.plainTextFallback => "plainTextFallback"

/-- Modelled from the spec (§4.3 step 5): the always-fresh execution
bookkeeping keys of a successful run. -/
def bookkeepingDelta (now : String) (outLen : Nat) (mode : RecoveryMode) : JRecord :=
  [("lastExecutionTime", JVal.str now),
   ("lastExecutionSuccess", JVal.bool true),
   ("lastOutputLength", JVal.num (Int.ofNat outLen)),
   ("lastResponseType", JVal.str (modeTag mode))]

/-- Modelled from the spec (§4.3 failure semantics): the failure-flagged
memory delta persisted when a step throws. -/
def failureDelta (e : String) : JRecord :=
  [("lastExecutionSuccess", JVal.bool false), ("lastError", JVal.str e)]

/-- Modelled from the spec (§4.3 step 4): the diagnostic of the
empty-stdout failure surfaces the stderr content. -/
def emptyOutputMsg (stderr : String) : String :=
  "Gemini CLI returned empty output. stderr: " ++ stderr

/-- One memory persistence attempt. -/
def persistStep (env : JobEnv) (st : Store) (j : String) (delta : JRecord)
    (now : String) : Except String Store :=
  match env.persistError with
  | some pe => Except.error pe
  | none => Except.ok (updateJobMemory st j delta now)

/-- Modelled from the spec (§4.3 steps 1-6): the fallible pipeline of one
job run — load template, build prompt, execute the subprocess; an empty
(after trimming) stdout even with exit code 0 is a failure surfacing the
stderr; otherwise recover the structured result, build the memory delta
(AI-provided keys first, the reserved bookkeeping keys written fresh over
them) and persist it. -/
def runSteps (env : JobEnv) (st : Store) (j now : String) :
    Except String (String × Store) :=
  match env.loadTemplate with
  | Except.error e => Except.error e
  | Except.ok tmpl =>
    match env.buildPrompt tmpl with
    | Except.error e => Except.error e
    | Except.ok prompt =>
      match env.execute prompt with
      | Except.error e => Except.error e
      | Except.ok out =>
        if trimStr out.1 = "" then
          Except.error (emptyOutputMsg out.2)
        else
          let r := recover out.1
          let delta := spreadMerge r.jobMemoryUpdates
            (bookkeepingDelta now out.1.length r.recoveryMode)
          match persistStep env st j delta now with
          | Except.error e => Except.error e
          | Except.ok st2 => Except.ok (r.jobResult, st2)

/-- Modelled from the spec (§4.3, §7): `executeJob` catches every exception
of the pipeline at the job boundary (it is a total function — nothing
propagates to the caller), reports a failed outcome carrying the error
message, and still attempts to persist the failure-flagged delta (that
attempt's own failure being swallowed). -/
def executeJob (env : JobEnv) (st : Store) (j now : String) : JobOutcome × Store :=
  match runSteps env st j now with
  | Except.ok (res, st2) => ({ success := true, message := res }, st2)
  | Except.error e =>
    match persistStep env st j (failureDelta e) now with
    | Except.ok st2 => ({ success := false, message := e }, st2)
    | Except.error _ => ({ success := false, message := e }, st)

/-! ### Claims about the Job Executor -/

/-- Environment whose template loading throws. -/
def envBoom : JobEnv :=
  { loadTemplate := Except.error "boom",
    buildPrompt := fun t => Except.ok t,
    execute := fun _ => Except.ok ("out", ""),
    persistError := none }

/-- Environment whose subprocess resolves with exit code 0, empty stdout,
and stderr "quota exceeded". -/
def envEmptyOut : JobEnv :=
  { loadTemplate := Except.ok "T",
    buildPrompt := fun t => Except.ok t,
    execute := fun _ => Except.ok ("", "quota exceeded"),
    persistError := none }

/-! ## Theorems -/

@[simp]
theorem getKey_setKey_self (r : JRecord) (k : String) (v : JVal) :
    getKey (setKey r k v) k = some v := by
  induction r with
  | nil => simp [setKey, getKey]
  | cons hd tl ih =>
    obtain ⟨k', v'⟩ := hd
    by_cases h : k' = k
    · simp [setKey, getKey, h]
    · simp [setKey, getKey, h, ih]

theorem getKey_setKey_ne (r : JRecord) (k k' : String) (v : JVal) (h : k ≠ k') :
    getKey (setKey r k v) k' = getKey r k' := by
  induction r with
  | nil => simp [setKey, getKey, h]
  | cons hd tl ih =>
    obtain ⟨k0, v0⟩ := hd
    by_cases h0 : k0 = k
    · subst h0
      simp [setKey, getKey, h]
    · simp only [setKey, if_neg h0]
      by_cases h1 : k0 = k'
      · simp [getKey, h1]
      · simp [getKey, h1, ih]

theorem getKey_spreadMerge_not_mem (m u : JRecord) (k : String)
    (h : k ∉ u.map Prod.fst) :
    getKey (spreadMerge m u) k = getKey m k := by
  induction u generalizing m with
  | nil => rfl
  | cons hd tl ih =>
    obtain ⟨k0, v0⟩ := hd
    simp only [List.map_cons, List.mem_cons] at h
    push_neg at h
    simp only [spreadMerge, List.foldl_cons]
    rw [show (List.foldl (fun acc kv => setKey acc kv.1 kv.2) (setKey m k0 v0) tl)
          = spreadMerge (setKey m k0 v0) tl from rfl]
    rw [ih _ h.2, getKey_setKey_ne _ _ _ _ (fun he => h.1 he.symm)]

theorem getKey_eq_none_of_not_mem (r : JRecord) (k : String)
    (h : k ∉ r.map Prod.fst) :
    getKey r k = none := by
  induction r with
  | nil => rfl
  | cons hd tl ih =>
    obtain ⟨k0, v0⟩ := hd
    simp only [List.map_cons, List.mem_cons] at h
    push_neg at h
    simp only [getKey, if_neg (Ne.symm h.1), ih h.2]

theorem getKey_spreadMerge (m u : JRecord) (k : String)
    (hnd : (u.map Prod.fst).Nodup) :
    getKey (spreadMerge m u) k =
      match getKey u k with
      | some v => some v
      | none => getKey m k := by
  induction u generalizing m with
  | nil => rfl
  | cons hd tl ih =>
    obtain ⟨k0, v0⟩ := hd
    simp only [List.map_cons, List.nodup_cons] at hnd
    simp only [spreadMerge, List.foldl_cons]
    rw [show (List.foldl (fun acc kv => setKey acc kv.1 kv.2) (setKey m k0 v0) tl)
          = spreadMerge (setKey m k0 v0) tl from rfl]
    by_cases h : k0 = k
    · subst h
      rw [ih _ hnd.2, getKey_eq_none_of_not_mem tl k0 hnd.1]
      simp [getKey]
    · rw [ih _ hnd.2, getKey_setKey_ne _ _ _ _ h]
      simp [getKey, h]

@[simp]
theorem storeGet_storeSet_self (st : Store) (p : String) (r : JRecord) :
    storeGet (storeSet st p r) p = some r := by
  induction st with
  | nil => simp [storeSet, storeGet]
  | cons hd tl ih =>
    obtain ⟨p', r'⟩ := hd
    by_cases h : p' = p
    · simp [storeSet, storeGet, h]
    · simp [storeSet, storeGet, h, ih]

theorem sendKill_kills_sub (cfg : RunnerCfg) (s : RunnerState) (sig : Sig) :
    ∀ p ∈ (sendKill cfg s sig).kills, p ∈ s.kills ∨ p.2 = sig := by
  intro p hp
  cases hpid : cfg.pid with
  | none => simp [sendKill, hpid] at hp; exact Or.inl hp
  | some pid =>
    cases hw : cfg.win32 <;> simp [sendKill, hpid, hw] at hp <;>
      rcases hp with h | h <;> simp [h]

theorem inv_init : Inv initState := by
  simp [Inv, initState]

theorem inv_step (cfg : RunnerCfg) (s : RunnerState) (e : Event) (h : Inv s) :
    Inv (step cfg s e) := by
  obtain ⟨h1, h2, h3, h4⟩ := h
  cases e with
  | stdoutData c =>
    cases hl : s.listenersActive <;> simp_all [step, Inv]
  | stderrData c =>
    cases hl : s.listenersActive <;> simp_all [step, Inv]
  | timeoutFire =>
    cases ht : s.timeoutActive with
    | false => simp_all [step, Inv]
    | true =>
      have hs : s.settled = false := by rw [h3, ht]; rfl
      simp [step, ht, hs, cleanup, clearTimers, Inv, h2]
  | forceKillFire =>
    have hstep : step cfg s Event.forceKillFire = s := by simp [step, h2]
    rw [hstep]
    exact ⟨h1, h2, h3, h4⟩
  | close code =>
    cases hl : s.listenersActive with
    | false => simp_all [step, Inv]
    | true =>
      have hs : s.settled = false := by rw [h4, hl]; rfl
      by_cases hc : code = some 0 <;>
        simp [step, hl, hs, cleanup, clearTimers, hc, Inv]
  | errored msg =>
    cases hl : s.listenersActive with
    | false => simp_all [step, Inv]
    | true =>
      have hs : s.settled = false := by rw [h4, hl]; rfl
      simp [step, hl, hs, cleanup, clearTimers, Inv]

theorem step_of_settled (cfg : RunnerCfg) (s : RunnerState) (e : Event)
    (h : Inv s) (hs : s.settled = true) : step cfg s e = s := by
  obtain ⟨h1, h2, h3, h4⟩ := h
  have ht : s.timeoutActive = false := by
    cases hx : s.timeoutActive <;> simp [hx] at h3 <;> simp_all
  have hl : s.listenersActive = false := by
    cases hx : s.listenersActive <;> simp [hx] at h4 <;> simp_all
  cases e <;> simp [step, ht, hl, h2]

theorem inv_foldl (cfg : RunnerCfg) (es : List Event) (s : RunnerState) (h : Inv s) :
    Inv (es.foldl (step cfg) s) := by
  induction es generalizing s with
  | nil => exact h
  | cons e tl ih => exact ih _ (inv_step cfg s e h)

theorem inv_run (cfg : RunnerCfg) (es : List Event) : Inv (run cfg es) :=
  inv_foldl cfg es initState inv_init

theorem foldl_of_settled (cfg : RunnerCfg) (es : List Event) (s : RunnerState)
    (h : Inv s) (hs : s.settled = true) : es.foldl (step cfg) s = s := by
  induction es with
  | nil => rfl
  | cons e tl ih => rw [List.foldl_cons, step_of_settled cfg s e h hs]; exact ih

theorem run_append (cfg : RunnerCfg) (es es' : List Event) :
    run cfg (es ++ es') = es'.foldl (step cfg) (run cfg es) := by
  simp [run, List.foldl_append]

/-- While unsettled, applying any of the three settling events settles. -/
theorem step_settles (cfg : RunnerCfg) (s : RunnerState) (h : Inv s)
    (hs : s.settled = false) (e : Event)
    (he : e = Event.timeoutFire ∨ (∃ c, e = Event.close c) ∨ ∃ m, e = Event.errored m) :
    ((step cfg s e).settlement).isSome = true := by
  obtain ⟨h1, h2, h3, h4⟩ := h
  have ht : s.timeoutActive = true := by
    cases hx : s.timeoutActive <;> simp [hx] at h3 <;> simp_all
  have hl : s.listenersActive = true := by
    cases hx : s.listenersActive <;> simp [hx] at h4 <;> simp_all
  rcases he with rfl | ⟨c, rfl⟩ | ⟨m, rfl⟩
  · simp [step, ht, hs, cleanup, clearTimers]
  · by_cases hc : c = some 0 <;> simp [step, hl, hs, cleanup, clearTimers, hc]
  · simp [step, hl, hs, cleanup, clearTimers]

/-- Every kill recorded by one step is either an old one, a SIGTERM, or a
SIGKILL that requires the force-kill timer to have been pending. -/
theorem step_kills_sub (cfg : RunnerCfg) (s : RunnerState) (e : Event) :
    ∀ p ∈ (step cfg s e).kills,
      p ∈ s.kills ∨ p.2 = Sig.sigterm ∨ (s.forceKillActive = true ∧ p.2 = Sig.sigkill) := by
  intro p hp
  cases e with
  | stdoutData c =>
    simp only [step] at hp
    split at hp <;> exact Or.inl hp
  | stderrData c =>
    simp only [step] at hp
    split at hp <;> exact Or.inl hp
  | timeoutFire =>
    simp only [step] at hp
    split at hp
    · split at hp <;>
        · simp only [cleanup, clearTimers] at hp
          rcases sendKill_kills_sub cfg _ Sig.sigterm p (by simpa using hp) with h | h
          · exact Or.inl h
          · exact Or.inr (Or.inl h)
    · exact Or.inl hp
  | forceKillFire =>
    simp only [step] at hp
    split at hp
    · rcases sendKill_kills_sub cfg _ Sig.sigkill p hp with h | h
      · exact Or.inl h
      · next hguard => exact Or.inr (Or.inr ⟨hguard, h⟩)
    · exact Or.inl hp
  | close code =>
    simp only [step] at hp
    split at hp
    · have hsub := sendKill_kills_sub cfg s Sig.sigterm p
      split at hp
      · simp only [cleanup, clearTimers] at hp
        rcases hsub (by simpa using hp) with h | h
        · exact Or.inl h
        · exact Or.inr (Or.inl h)
      · split at hp <;>
          · simp only [cleanup, clearTimers] at hp
            rcases hsub (by simpa using hp) with h | h
            · exact Or.inl h
            · exact Or.inr (Or.inl h)
    · exact Or.inl hp
  | errored msg =>
    simp only [step] at hp
    split at hp
    · split at hp <;>
        · simp only [cleanup, clearTimers] at hp
          exact Or.inl hp
    · exact Or.inl hp

/-- A SIGKILL signal is never recorded in any reachable state. -/
theorem kills_sigterm_foldl (cfg : RunnerCfg) (es : List Event) (s : RunnerState)
    (h : Inv s) (hk : ∀ p ∈ s.kills, p.2 = Sig.sigterm) :
    ∀ p ∈ (es.foldl (step cfg) s).kills, p.2 = Sig.sigterm := by
  induction es generalizing s with
  | nil => exact hk
  | cons e tl ih =>
    refine ih _ (inv_step cfg s e h) ?_
    intro p hp
    rcases step_kills_sub cfg s e p hp with hmem | hsig | ⟨hforce, _⟩
    · exact hk p hmem
    · exact hsig
    · exact absurd hforce (by simp [h.2.1])

/-- Claim C1: for every invocation of `executeGemini`, whatever the order and
multiplicity of subprocess events and timer firings, the promise settles
exactly once: the `settled` guard flag always agrees with the settlement
being present; once a settlement is recorded no further events can change
it; and from any unsettled state every settling event (timeout firing,
`close`, `error`) produces a settlement. -/
theorem executeGemini_settles_exactly_once (cfg : RunnerCfg) (es es' : List Event) :
    ((run cfg es).settled = ((run cfg es).settlement).isSome) ∧
    (∀ o : Settlement, (run cfg es).settlement = some o →
      (run cfg (es ++ es')).settlement = some o) ∧
    ((run cfg es).settlement = none →
      ∀ e : Event,
        (e = Event.timeoutFire ∨ (∃ c, e = Event.close c) ∨ (∃ m, e = Event.errored m)) →
        ((run cfg (es ++ [e])).settlement).isSome = true) := by
  have hInv := inv_run cfg es
  refine ⟨hInv.1, ?_, ?_⟩
  · intro o h
    have hs : (run cfg es).settled = true := by rw [hInv.1, h]; rfl
    rw [run_append, foldl_of_settled cfg es' _ hInv hs]
    exact h
  · intro h e he
    have hs : (run cfg es).settled = false := by rw [hInv.1, h]; rfl
    rw [run_append]
    simpa using step_settles cfg (run cfg es) hInv hs e he

theorem executeGemini_settles_exactly_once_witness :
    (run ⟨false, some 7, 1000⟩
        ([Event.stdoutData "ok", Event.close (some 0)] ++
          [Event.timeoutFire, Event.close (some 1), Event.errored "boom"])).settlement
      = some (Settlement.completed "ok" "") :=
  (executeGemini_settles_exactly_once ⟨false, some 7, 1000⟩
      [Event.stdoutData "ok", Event.close (some 0)]
      [Event.timeoutFire, Event.close (some 1), Event.errored "boom"]).2.1
    (Settlement.completed "ok" "") (by decide)

/-- Claim C2 (evidence for the code bug): when the timeout fires first, the
handler sends SIGTERM to the whole process group (negative group id on
POSIX) and the promise immediately rejects as timed out — but the promised
SIGKILL escalation is dead code: the same handler's `cleanup()` call clears
the force-kill timer it scheduled a moment earlier, so in no reachable
state is the force-kill timer pending and no SIGKILL is ever sent, however
long the process survives SIGTERM.  The last conjunct evaluates the runner
on the failing input (timeout fires, process never exits). -/
theorem executeGemini_timeout_never_sigkill (cfg : RunnerCfg) (es : List Event) :
    ((run cfg es).forceKillActive = false) ∧
    ((run cfg es).kills.all (fun p => p.2 == Sig.sigterm) = true) ∧
    (run ⟨false, some 7, 1000⟩ [Event.timeoutFire] =
      { settled := true, timeoutActive := false, forceKillActive := false,
        listenersActive := false, stdoutBuf := "", stderrBuf := "",
        kills := [(KillTarget.group 7, Sig.sigterm)],
        settlement := some (Settlement.timedOut
          "Gemini CLI execution timed out after 1000ms") }) := by
  refine ⟨(inv_run cfg es).2.1, ?_, by decide⟩
  rw [List.all_eq_true]
  intro p hp
  have := kills_sigterm_foldl cfg es initState inv_init (by simp [initState]) p hp
  simp [this]

/-- Claim C4 counterexample: with stdout "hello" and stderr "oops" accumulated and
the subprocess closing with exit code 1, the runner does not produce an
ExecutionResult at all — it rejects, and the rejection carries the stderr
text but not the stdout text. -/
theorem close_nonzero_no_result_counterexample :
    ((run ⟨false, some 7, 1000⟩
        [Event.stdoutData "hello", Event.stderrData "oops",
         Event.close (some 1)]).settlement
      = some (Settlement.exitFailure "Gemini CLI failed with exit code 1: oops")) ∧
    (isCompletedSettlement (run ⟨false, some 7, 1000⟩
        [Event.stdoutData "hello", Event.stderrData "oops",
         Event.close (some 1)]).settlement = false) ∧
    (hasSub "Gemini CLI failed with exit code 1: oops".data "hello".data = false) ∧
    (hasSub "Gemini CLI failed with exit code 1: oops".data "oops".data = true) := by
  decide

/-- Claim C4 amended: when the subprocess closes with a non-zero exit code before
any other settlement, the runner rejects (it does not resolve with an
ExecutionResult): the settlement is an `exitFailure` whose message carries
the exit code and the accumulated standard-error text (the stderr text is a
suffix of the message), and classification as a failure happens in the
runner itself by this rejection, which the Job Executor observes as a
caught error. -/
theorem close_nonzero_rejects_with_stderr (cfg : RunnerCfg) (es : List Event)
    (c : Option Int) (h : (run cfg es).settlement = none) (hc : c ≠ some 0) :
    ((run cfg (es ++ [Event.close c])).settlement
      = some (Settlement.exitFailure (exitFailureMsg c (run cfg es).stderrBuf))) ∧
    (∃ pre, exitFailureMsg c (run cfg es).stderrBuf
      = pre ++ (run cfg es).stderrBuf) := by
  have hInv := inv_run cfg es
  have hs : (run cfg es).settled = false := by rw [hInv.1, h]; rfl
  have hl : (run cfg es).listenersActive = true := by
    have h4 := hInv.2.2.2
    cases hx : (run cfg es).listenersActive
    · rw [hx] at h4; simp at h4; rw [h4] at hs; cases hs
    · rfl
  constructor
  · rw [run_append]
    simp only [List.foldl_cons, List.foldl_nil, step, hl, if_pos rfl]
    simp [cleanup, clearTimers, hs, hc]
  · exact ⟨"Gemini CLI failed with exit code " ++ intCodeStr c ++ ": ", rfl⟩

theorem close_nonzero_rejects_with_stderr_witness :
    ((run ⟨false, some 7, 1000⟩ ([Event.stderrData "oops"] ++ [Event.close (some 1)])).settlement
      = some (Settlement.exitFailure
          (exitFailureMsg (some 1) (run ⟨false, some 7, 1000⟩ [Event.stderrData "oops"]).stderrBuf))) ∧
    (∃ pre, exitFailureMsg (some 1) (run ⟨false, some 7, 1000⟩ [Event.stderrData "oops"]).stderrBuf
      = pre ++ (run ⟨false, some 7, 1000⟩ [Event.stderrData "oops"]).stderrBuf) :=
  close_nonzero_rejects_with_stderr ⟨false, some 7, 1000⟩
    [Event.stderrData "oops"] (some 1) (by decide) (by decide)

/-- Shared helper: what a key reads as after a load-merge-save
(`updateJobMemory`), for any key other than the reserved `_metadata`. -/
theorem getKey_load_update (st : Store) (j now : String) (u : JRecord) (k : String)
    (hk : k ≠ "_metadata") (hnd : (u.map Prod.fst).Nodup) :
    getKey (loadJobMemory (updateJobMemory st j u now) j) k =
      match getKey u k with
      | some v => some v
      | none => getKey (loadJobMemory st j) k := by
  unfold updateJobMemory saveJobMemory
  unfold loadJobMemory
  rw [storeGet_storeSet_self]
  unfold memoryWithMetadata
  rw [getKey_setKey_ne _ _ _ _ (Ne.symm hk)]
  exact getKey_spreadMerge _ u k hnd

/-- Claim C8 counterexample: `_metadata` is a key of the prior map `M` that is
absent from the update `U = {}`, yet persisting the (empty) update does not
keep its prior value — `saveJobMemory` rewrites `_metadata` afresh, bumping
`updateCount` from 1 to 2. -/
theorem updateJobMemory_metadata_rewritten_counterexample :
    (getKey (loadJobMemory memSt0 "job") "_metadata"
        = some (JVal.obj [("updateCount", JVal.num 1)])) ∧
    (getKey (loadJobMemory (updateJobMemory memSt0 "job" [] "t1") "job") "_metadata"
        = some (JVal.obj [("jobName", JVal.str "job"), ("lastUpdated", JVal.str "t1"),
                          ("updateCount", JVal.num 2)])) ∧
    ((updateCountOf (loadJobMemory (updateJobMemory memSt0 "job" [] "t1") "job")
        == updateCountOf (loadJobMemory memSt0 "job")) = false) := by
  refine ⟨rfl, rfl, by decide⟩

/-- Claim C8 amended: persisting an update stores the merge of the prior map `M`
and the update `U` for every key other than the reserved `_metadata` key —
such keys of `M` absent from `U` keep their prior value, keys present in
both take `U`'s value, so the store is never a full overwrite; `_metadata`
alone is always rewritten fresh by the save. -/
theorem updateJobMemory_merges (st : Store) (j now : String) (u : JRecord) (k : String)
    (hk : k ≠ "_metadata") (hnd : (u.map Prod.fst).Nodup) :
    getKey (loadJobMemory (updateJobMemory st j u now) j) k =
      match getKey u k with
      | some v => some v
      | none => getKey (loadJobMemory st j) k :=
  getKey_load_update st j now u k hk hnd

theorem updateJobMemory_merges_witness :
    (getKey (loadJobMemory (updateJobMemory
        [(getMemoryFilePath "j", [("a", JVal.num 1)])] "j" [("b", JVal.num 2)] "t") "j") "a"
      = some (JVal.num 1)) ∧
    (getKey (loadJobMemory (updateJobMemory
        [(getMemoryFilePath "j", [("a", JVal.num 1)])] "j" [("b", JVal.num 2)] "t") "j") "b"
      = some (JVal.num 2)) :=
  ⟨(updateJobMemory_merges [(getMemoryFilePath "j", [("a", JVal.num 1)])] "j" "t"
      [("b", JVal.num 2)] "a" (by decide) (by decide)).trans rfl,
   (updateJobMemory_merges [(getMemoryFilePath "j", [("a", JVal.num 1)])] "j" "t"
      [("b", JVal.num 2)] "b" (by decide) (by decide)).trans rfl⟩

/-- Claim C9: every save writes a fresh `_metadata` block whose `updateCount` is
the count carried by the map being saved (0 when absent) plus one, and
across a whole load-merge-save (`updateJobMemory` with an update that does
not name `_metadata`) the stored count increments by exactly one.  The
numericity hypotheses restrict the statement to the value domain the module
itself produces (`updateCount` is only ever written as a number by
`saveJobMemory`; for a non-numeric count JavaScript's
`(… || 0) + 1` would concatenate rather than add). -/
theorem saveJobMemory_increments_updateCount (st : Store) (j now : String) (m u : JRecord)
    (_hm : rawUpdateCount m = none ∨ ∃ n, rawUpdateCount m = some (JVal.num n))
    (_hl : rawUpdateCount (loadJobMemory st j) = none ∨
      ∃ n, rawUpdateCount (loadJobMemory st j) = some (JVal.num n))
    (hu : "_metadata" ∉ u.map Prod.fst) :
    (updateCountOf (loadJobMemory (saveJobMemory st j m now) j) = updateCountOf m + 1) ∧
    (getKey (loadJobMemory (saveJobMemory st j m now) j) "_metadata"
        = some (freshMetadata j now m)) ∧
    (updateCountOf (loadJobMemory (updateJobMemory st j u now) j)
        = updateCountOf (loadJobMemory st j) + 1) := by
  have hsave : ∀ m' : JRecord,
      getKey (loadJobMemory (saveJobMemory st j m' now) j) "_metadata"
        = some (freshMetadata j now m') := by
    intro m'
    unfold saveJobMemory loadJobMemory
    rw [storeGet_storeSet_self]
    exact getKey_setKey_self _ _ _
  have hcount : ∀ m' : JRecord,
      updateCountOf (loadJobMemory (saveJobMemory st j m' now) j)
        = updateCountOf m' + 1 := by
    intro m'
    unfold updateCountOf
    rw [hsave m']
    rfl
  refine ⟨hcount m, hsave m, ?_⟩
  unfold updateJobMemory
  rw [hcount (spreadMerge (loadJobMemory st j) u)]
  unfold updateCountOf
  rw [getKey_spreadMerge_not_mem _ u _ hu]

theorem saveJobMemory_increments_updateCount_witness :
    (updateCountOf (loadJobMemory (saveJobMemory memSt0 "job"
        [("_metadata", JVal.obj [("updateCount", JVal.num 4)])] "t2") "job") = 5) ∧
    (getKey (loadJobMemory (saveJobMemory memSt0 "job"
        [("_metadata", JVal.obj [("updateCount", JVal.num 4)])] "t2") "job") "_metadata"
      = some (freshMetadata "job" "t2" [("_metadata", JVal.obj [("updateCount", JVal.num 4)])])) ∧
    (updateCountOf (loadJobMemory (updateJobMemory memSt0 "job"
        [("b", JVal.num 2)] "t2") "job") = 2) :=
  saveJobMemory_increments_updateCount memSt0 "job" "t2"
    [("_metadata", JVal.obj [("updateCount", JVal.num 4)])] [("b", JVal.num 2)]
    (Or.inr ⟨4, rfl⟩) (Or.inr ⟨1, rfl⟩) (by decide)

/-- Claim C10 counterexample: the full memory file path does contain characters
outside `[a-zA-Z0-9-_]` (the directory separators and the dots of
`.memory.json`), even though the sanitized job-name component never does. -/
theorem memory_path_unsafe_chars_counterexample :
    ((getMemoryFilePath "a").data.all isSafeChar = false) ∧
    (isSafeChar '.' = false) ∧ (isSafeChar '/' = false) := by
  decide

/-- Claim C10 amended: every load and save addresses the file whose base name is
the job name with each character outside `[a-zA-Z0-9-_]` replaced by `_`:
the sanitized component contains only safe characters, names that sanitize
alike (such as "a b" and "a_b") yield the same path, and `loadJobMemory` /
`saveJobMemory` read and write the store at exactly `getMemoryFilePath`.
(The fixed directory prefix and the `.memory.json` ending contain `/` and
`.`, so the path as a whole is not drawn from the safe set — only its
job-name-derived component is.) -/
theorem memory_path_sanitization (j j1 j2 : String) (st : Store) (m : JRecord) (now : String) :
    ((sanitizeJobName j).data.all isSafeChar = true) ∧
    (sanitizeJobName j1 = sanitizeJobName j2 → getMemoryFilePath j1 = getMemoryFilePath j2) ∧
    (getMemoryFilePath "a b" = getMemoryFilePath "a_b") ∧
    (loadJobMemory st j =
      (match storeGet st (getMemoryFilePath j) with
       | some r => r
       | none => [])) ∧
    (saveJobMemory st j m now
      = storeSet st (getMemoryFilePath j) (memoryWithMetadata j now m)) := by
  refine ⟨?_, ?_, by decide, rfl, rfl⟩
  · rw [List.all_eq_true]
    intro c hc
    have : ∃ a ∈ j.data, sanChar a = c := by
      simpa [sanitizeJobName] using hc
    obtain ⟨a, _, rfl⟩ := this
    unfold sanChar
    by_cases hsafe : isSafeChar a = true
    · simp [hsafe]
    · simp only [hsafe, Bool.false_eq_true, if_false]
      decide
  · intro h
    unfold getMemoryFilePath
    rw [h]

theorem memory_path_sanitization_witness :
    getMemoryFilePath "a b" = getMemoryFilePath "a_b" :=
  (memory_path_sanitization "x" "a b" "a_b" [] [] "t").2.1 (by decide)

theorem subseg_trans {a b c : List Char} (h1 : SubSeg a b) (h2 : SubSeg b c) :
    SubSeg a c := by
  obtain ⟨p1, s1, rfl⟩ := h1
  obtain ⟨p2, s2, rfl⟩ := h2
  exact ⟨p2 ++ p1, s1 ++ s2, by simp⟩

theorem slice_subseg (l : List Char) (i n : Nat) : SubSeg (slice l i n) l := by
  refine ⟨l.take i, (l.drop i).drop n, ?_⟩
  rw [slice, List.append_assoc, List.take_append_drop, List.take_append_drop]

theorem subseg_of_mem_allSlices {t l : List Char} (h : t ∈ allSlices l) :
    SubSeg t l := by
  simp only [allSlices, List.mem_flatMap, List.mem_map, List.mem_range] at h
  obtain ⟨i, _, n, _, rfl⟩ := h
  exact slice_subseg l i n

theorem mem_allSlices_of_subseg {t l : List Char} (h : SubSeg t l) :
    t ∈ allSlices l := by
  obtain ⟨l₁, l₂, rfl⟩ := h
  simp only [allSlices, List.mem_flatMap, List.mem_map, List.mem_range]
  refine ⟨l₁.length, ?_, t.length, ?_, ?_⟩
  · simp; omega
  · simp; omega
  · rw [slice, List.append_assoc, List.drop_left, List.take_left]

theorem takeDropAppend (p : Char → Bool) (l : List Char) :
    l.takeWhile p ++ l.dropWhile p = l := by
  induction l with
  | nil => rfl
  | cons c rest ih =>
    by_cases h : p c = true
    · simp [List.takeWhile, List.dropWhile, h, ih]
    · simp [List.takeWhile, List.dropWhile, h]

theorem trim_subseg (l : List Char) : SubSeg (trimChars l) l := by
  refine ⟨l.takeWhile isWs, ((l.dropWhile isWs).reverse.takeWhile isWs).reverse, ?_⟩
  unfold trimChars
  conv_lhs => rw [← takeDropAppend isWs l]
  rw [List.append_assoc]
  congr 1
  rw [← List.reverse_append, takeDropAppend isWs (l.dropWhile isWs).reverse,
    List.reverse_reverse]

theorem splitNl_ne_nil (l : List Char) : splitNl l ≠ [] := by
  cases l with
  | nil => simp [splitNl]
  | cons c rest =>
    by_cases h : c = '\n'
    · simp [splitNl, h]
    · simp only [splitNl, if_neg h]
      cases splitNl rest <;> simp

theorem splitNl_head_prefix (l : List Char) :
    ∃ t, l = (splitNl l).headD [] ++ t := by
  induction l with
  | nil => exact ⟨[], rfl⟩
  | cons c rest ih =>
    by_cases h : c = '\n'
    · exact ⟨c :: rest, by simp [splitNl, h]⟩
    · obtain ⟨t, ht⟩ := ih
      simp only [splitNl, if_neg h]
      rcases hs : splitNl rest with _ | ⟨line, more⟩
      · exact absurd hs (splitNl_ne_nil rest)
      · rw [hs] at ht
        exact ⟨t, by simp [List.headD, ht]⟩

theorem splitNl_subseg (l : List Char) : ∀ line ∈ splitNl l, SubSeg line l := by
  induction l with
  | nil =>
    intro line hline
    simp [splitNl] at hline
    exact ⟨[], [], by simp [hline]⟩
  | cons c rest ih =>
    intro line hline
    by_cases h : c = '\n'
    · simp only [splitNl, if_pos h, List.mem_cons] at hline
      rcases hline with rfl | hline
      · exact ⟨[], c :: rest, rfl⟩
      · obtain ⟨p, s, hps⟩ := ih line hline
        exact ⟨c :: p, s, by simp [hps]⟩
    · simp only [splitNl, if_neg h] at hline
      rcases hs : splitNl rest with _ | ⟨line0, more⟩
      · exact absurd hs (splitNl_ne_nil rest)
      · rw [hs, List.mem_cons] at hline
        rcases hline with rfl | hline
        · obtain ⟨t, ht⟩ := splitNl_head_prefix rest
          rw [hs] at ht
          simp only [List.headD] at ht
          exact ⟨[], t, by simp [ht]⟩
        · have : line ∈ splitNl rest := by rw [hs]; exact List.mem_cons_of_mem _ hline
          obtain ⟨p, s, hps⟩ := ih line this
          exact ⟨c :: p, s, by simp [hps]⟩

theorem acceptStrict_eq_none_of_not_obj (v : JVal) (h : isObjVal v = false) :
    acceptStrict v = none := by
  cases v <;> simp_all [isObjVal, acceptStrict]

theorem scanCandidates_eq_none (cs : List (List Char))
    (h : ∀ c ∈ cs, objParses c = false) :
    scanCandidates cs = none := by
  induction cs with
  | nil => rfl
  | cons c rest ih =>
    have hc := h c (List.mem_cons_self c rest)
    have hrest := ih (fun x hx => h x (List.mem_cons_of_mem c hx))
    rw [scanCandidates]
    rcases hp : jsonParseL c with _ | v
    · exact hrest
    · rw [objParses, hp] at hc
      simp only [acceptStrict_eq_none_of_not_obj v hc]
      exact hrest

theorem embeddedCandidates_subseg (l : List Char) :
    ∀ c ∈ embeddedCandidates l, SubSeg c l := by
  intro c hc
  rw [embeddedCandidates] at hc
  rcases List.mem_append.mp hc with hc1 | hc1
  · rcases List.mem_append.mp hc1 with hc2 | hc2
    · exact subseg_of_mem_allSlices (List.mem_of_mem_filter hc2)
    · exact subseg_of_mem_allSlices (List.mem_of_mem_filter hc2)
  · unfold greedySpan at hc1
    rcases hf : List.findIdx? (fun c => c = '{') l with _ | i <;> rw [hf] at hc1
    · simp at hc1
    · rcases hg : List.findIdx? (fun c => c = '}') l.reverse with _ | rj <;>
        rw [hg] at hc1
      · simp at hc1
      · by_cases hij : i < l.length - 1 - rj
        · simp only [if_pos hij] at hc1
          rw [List.mem_singleton.mp hc1]
          exact slice_subseg l i _
        · simp [hij] at hc1

theorem lineCandidates_subseg (l : List Char) :
    ∀ c ∈ lineCandidates l, SubSeg c l := by
  intro c hc
  rw [lineCandidates] at hc
  have hmem := List.mem_of_mem_filter hc
  rw [List.mem_map] at hmem
  obtain ⟨line, hline, rfl⟩ := hmem
  exact subseg_trans (trim_subseg line) (splitNl_subseg l line hline)

/-- Claim C6: for every input string in which no substring parses as a JSON
object (in particular, for strings with no valid JSON anywhere, including
the empty string), `recover` returns (it is a total function, so it cannot
raise) the plain-text fallback: `jobResult` is exactly the raw input text
and `jobMemoryUpdates` is empty. -/
theorem recover_plain_text_identity (raw : String)
    (h : ∀ t : List Char, SubSeg t raw.data → objParses t = false) :
    recover raw = { jobResult := raw, jobMemoryUpdates := [],
                    recoveryMode := RecoveryMode.plainTextFallback } := by
  have h1 : scanCandidates (embeddedCandidates raw.data) = none :=
    scanCandidates_eq_none _ (fun c hc => h c (embeddedCandidates_subseg raw.data c hc))
  have h2 : scanCandidates (lineCandidates raw.data) = none :=
    scanCandidates_eq_none _ (fun c hc => h c (lineCandidates_subseg raw.data c hc))
  have h0 := h (trimChars raw.data) (trim_subseg raw.data)
  unfold recover
  rcases hp : jsonParseL (trimChars raw.data) with _ | v
  · simp [h1, h2]
  · rw [objParses, hp] at h0
    cases v <;> simp_all [isObjVal, h1, h2]

theorem recover_plain_text_identity_witness :
    recover "plain text" = { jobResult := "plain text", jobMemoryUpdates := [],
                             recoveryMode := RecoveryMode.plainTextFallback } :=
  recover_plain_text_identity "plain text"
    (fun t ht =>
      (by decide : ∀ t ∈ allSlices "plain text".data, objParses t = false) t
        (mem_allSlices_of_subseg ht))

/-- Claim C7: a candidate whose JSON parse succeeds syntactically but yields a
non-object (a bare number, array, string, boolean or null) is rejected
wherever it appears: the acceptance function refuses it, the candidate scan
skips it and continues with the rest of the candidates and strategies, and
a whole text trimming to such a candidate is never tagged `wholeTextJson` —
the non-object parse is never accepted as the structured result. -/
theorem nonobject_parse_rejected (c : List Char) (v : JVal) (rest : List (List Char))
    (raw : String) (hparse : jsonParseL c = some v) (hobj : isObjVal v = false)
    (htrim : trimChars raw.data = c) :
    (acceptStrict v = none) ∧
    (scanCandidates (c :: rest) = scanCandidates rest) ∧
    (((recover raw).recoveryMode == RecoveryMode.wholeTextJson) = false) := by
  refine ⟨acceptStrict_eq_none_of_not_obj v hobj, ?_, ?_⟩
  · rw [scanCandidates, hparse]
    simp only [acceptStrict_eq_none_of_not_obj v hobj]
  · unfold recover
    rw [htrim, hparse]
    cases v
    case obj fs => simp [isObjVal] at hobj
    all_goals (
      rcases h2 : scanCandidates (embeddedCandidates raw.data) with _ | pr
      · rcases h3 : scanCandidates (lineCandidates raw.data) with _ | pr2
        · simp [h2, h3]
        · obtain ⟨jr2, mem2⟩ := pr2
          simp [h2, h3]
      · obtain ⟨jr, mem⟩ := pr
        simp [h2])

theorem nonobject_parse_rejected_witness :
    (acceptStrict (JVal.num 42) = none) ∧
    (scanCandidates ["42".data] = scanCandidates []) ∧
    (((recover "42").recoveryMode == RecoveryMode.wholeTextJson) = false) :=
  nonobject_parse_rejected "42".data (JVal.num 42) [] "42" rfl rfl (by decide)

/-- Shared helper: shape of `executeJob` when the pipeline throws and
persistence works. -/
theorem executeJob_error (env : JobEnv) (st : Store) (j now e : String)
    (h : runSteps env st j now = Except.error e) (hp : env.persistError = none) :
    executeJob env st j now =
      ({ success := false, message := e },
        updateJobMemory st j (failureDelta e) now) := by
  unfold executeJob
  rw [h]
  unfold persistStep
  rw [hp]

/-- Shared helper: the persisted failure flags are visible to the next
load. -/
theorem failure_flags_visible (st : Store) (j now e : String) :
    (getKey (loadJobMemory (updateJobMemory st j (failureDelta e) now) j)
        "lastExecutionSuccess" = some (JVal.bool false)) ∧
    (getKey (loadJobMemory (updateJobMemory st j (failureDelta e) now) j)
        "lastError" = some (JVal.str e)) := by
  constructor
  · rw [getKey_load_update st j now (failureDelta e) "lastExecutionSuccess"
      (by decide) (by simp [failureDelta])]
    rfl
  · rw [getKey_load_update st j now (failureDelta e) "lastError"
      (by decide) (by simp [failureDelta])]
    rfl

/-- Claim C3: when any step of a job run throws (template loading, prompt
building, subprocess execution, or memory persistence — i.e. the pipeline
produces an error), the executor catches it at the job boundary
(`executeJob` is total, so nothing propagates to the caller), reports a
failed outcome carrying the error message, and still persists a memory
delta with `lastExecutionSuccess = false` and `lastError` set to the
message, which the next run's memory load sees. -/
theorem job_exception_caught_and_flagged (env : JobEnv) (st : Store) (j now e : String)
    (h : runSteps env st j now = Except.error e) (hp : env.persistError = none) :
    ((executeJob env st j now).1.success = false) ∧
    ((executeJob env st j now).1.message = e) ∧
    (getKey (loadJobMemory (executeJob env st j now).2 j) "lastExecutionSuccess"
        = some (JVal.bool false)) ∧
    (getKey (loadJobMemory (executeJob env st j now).2 j) "lastError"
        = some (JVal.str e)) := by
  rw [executeJob_error env st j now e h hp]
  exact ⟨rfl, rfl, (failure_flags_visible st j now e).1,
    (failure_flags_visible st j now e).2⟩

theorem job_exception_caught_and_flagged_witness :
    ((executeJob envBoom [] "job" "t").1.success = false) ∧
    ((executeJob envBoom [] "job" "t").1.message = "boom") ∧
    (getKey (loadJobMemory (executeJob envBoom [] "job" "t").2 "job")
        "lastExecutionSuccess" = some (JVal.bool false)) ∧
    (getKey (loadJobMemory (executeJob envBoom [] "job" "t").2 "job")
        "lastError" = some (JVal.str "boom")) :=
  job_exception_caught_and_flagged envBoom [] "job" "t" "boom" rfl rfl

/-- Claim C5: when the subprocess exits with code 0 (the runner resolves) but the
captured stdout is empty after trimming, the job run is a failure — success
is never reported — the diagnostic message surfaces the captured stderr
(which is a suffix of it), and the persisted memory is failure-flagged. -/
theorem empty_stdout_is_failure (env : JobEnv) (st : Store)
    (j now tmpl prompt out errTxt : String)
    (h1 : env.loadTemplate = Except.ok tmpl)
    (h2 : env.buildPrompt tmpl = Except.ok prompt)
    (h3 : env.execute prompt = Except.ok (out, errTxt))
    (hout : trimStr out = "")
    (hp : env.persistError = none) :
    ((executeJob env st j now).1.success = false) ∧
    ((executeJob env st j now).1.message = emptyOutputMsg errTxt) ∧
    (∃ pre, (executeJob env st j now).1.message = pre ++ errTxt) ∧
    (getKey (loadJobMemory (executeJob env st j now).2 j) "lastExecutionSuccess"
        = some (JVal.bool false)) := by
  have hrun : runSteps env st j now = Except.error (emptyOutputMsg errTxt) := by
    simp [runSteps, h1, h2, h3, hout]
  rw [executeJob_error env st j now (emptyOutputMsg errTxt) hrun hp]
  exact ⟨rfl, rfl, ⟨"Gemini CLI returned empty output. stderr: ", rfl⟩,
    (failure_flags_visible st j now (emptyOutputMsg errTxt)).1⟩

theorem empty_stdout_is_failure_witness :
    ((executeJob envEmptyOut [] "job" "t").1.success = false) ∧
    ((executeJob envEmptyOut [] "job" "t").1.message = emptyOutputMsg "quota exceeded") ∧
    (∃ pre, (executeJob envEmptyOut [] "job" "t").1.message = pre ++ "quota exceeded") ∧
    (getKey (loadJobMemory (executeJob envEmptyOut [] "job" "t").2 "job")
        "lastExecutionSuccess" = some (JVal.bool false)) :=
  empty_stdout_is_failure envEmptyOut [] "job" "t" "T" "T" "" "quota exceeded"
    rfl rfl rfl rfl rfl

end GeminiCliJob
